import Mathlib

/-!
Verification development for the resumable batch translation job engine
(`src/services/TranslationTaskService.ts`) and its content-addressed
translation cache (`src/utils/db.ts`).

Modelling conventions:
* JS strings are modelled as lists of UTF-16 code units (`Str := List Nat`);
  `charCodeAt` returns exactly these units.
* JS `number` arithmetic on the integer counters of this code is exact, so it
  is modelled over `Nat`/`Int`; 32-bit wrap-around (`<< 5`, `& hash`, the
  `ToInt32` conversions of the hash loop) is made explicit with `% 2^32`.
* A JS `Map` is modelled as an insertion-ordered association list with
  key-unique `set`/`get`/`has` (`mapSet`/`mapGet`/`mapHas`).
* The Dexie table is modelled as a list of records in insertion order;
  `Date.now()` is a logical clock threaded through the state machine.
-/

/-- A JS string, as its sequence of UTF-16 code units. -/
abbrev Str := List Nat

/-- Truncation to a signed 32-bit integer, i.e. the `ToInt32` conversion that
JS applies for `<< 5` and `& hash` in `generateSentenceHash`. -/
def toInt32 (x : Int) : Int :=
  (x + 2147483648) % 4294967296 - 2147483648

/-- One iteration of the hash loop of `generateSentenceHash` (db.ts:37-42):
`hash = ((hash << 5) - hash) + char; hash = hash & hash`.  The shift wraps in
32 bits, the subtraction and addition are exact, and `& hash` truncates back
to a signed 32-bit integer. -/
def hashStep (h : Int) (c : Nat) : Int :=
  toInt32 (toInt32 (h * 32) - h + (c : Int))

/-- Little-endian base-36 digits of a positive number; structural fuel makes
the definition kernel-reducible.  `digits36Aux n n` computes the digits of
`n` for `n > 0` since the quotient shrinks at every step. -/
def digits36Aux : Nat → Nat → List Nat
  | 0, _ => []
  | _ + 1, 0 => []
  | fuel + 1, n + 1 => ((n + 1) % 36) :: digits36Aux fuel ((n + 1) / 36)

/-- `n.toString(36)` rendered as its base-36 digit sequence (a faithful,
injective rendering of the string JS produces). -/
def natToBase36 (n : Nat) : List Nat :=
  if n = 0 then [0] else digits36Aux n n

/-- `generateSentenceHash` (db.ts:35-44): fold the 31x+c step over the code
units starting from 0, take `Math.abs`, render in base 36. -/
def generateSentenceHash (text : Str) : List Nat :=
  natToBase36 (text.foldl hashStep 0).natAbs

/-- A row of the `translations` Dexie table (db.ts:4-14). -/
structure TranslationRecord where
  bookId : Str
  sentenceHash : List Nat
  originalText : Str
  translatedText : Str
  createdAt : Nat
  updatedAt : Nat
deriving DecidableEq, Repr

/-- The `translations` table, in insertion order. -/
abbrev DB := List TranslationRecord

/-- `Map.prototype.has`. -/
def mapHas (m : List (Str × Str)) (k : Str) : Bool :=
  m.any (fun p => p.1 = k)

/-- `Map.prototype.get` (`none` = `undefined`). -/
def mapGet (m : List (Str × Str)) (k : Str) : Option Str :=
  (m.find? (fun p => p.1 = k)).map (·.2)

/-- `Map.prototype.set`: update in place if the key is present, else append. -/
def mapSet (m : List (Str × Str)) (k v : Str) : List (Str × Str) :=
  if mapHas m k then m.map (fun p => if p.1 = k then (k, v) else p)
  else m ++ [(k, v)]

/-- `getBatchTranslations` (db.ts:112-134): hash every queried sentence,
select the records of this `bookId` whose stored hash is among the queried
hashes, and build a Map from each record's *stored* `originalText` to its
`translatedText`. -/
def getBatchTranslations (db : DB) (bookId : Str) (sentences : List Str) :
    List (Str × Str) :=
  let hashes := sentences.map generateSentenceHash
  let records := db.filter (fun r => r.bookId = bookId ∧ r.sentenceHash ∈ hashes)
  records.foldl (fun m r => mapSet m r.originalText r.translatedText) []

/-- Update the first record satisfying the predicate (Dexie
`update(existing.id, ...)` touches exactly the record found by `first()`). -/
def updateFirst (db : DB) (p : TranslationRecord → Bool)
    (f : TranslationRecord → TranslationRecord) : DB :=
  match db with
  | [] => []
  | r :: rs => if p r then f r :: rs else r :: updateFirst rs p f

/-- `saveTranslation` (db.ts:65-109): upsert keyed by `(bookId, hash)` — if a
record with this book and hash exists, overwrite its translation and
`updatedAt` (the stored `originalText` is *not* changed), else append a fresh
record. -/
def saveTranslation (db : DB) (bookId originalText translatedText : Str)
    (now : Nat) : DB :=
  let h := generateSentenceHash originalText
  let keyMatch : TranslationRecord → Bool :=
    fun r => r.bookId = bookId ∧ r.sentenceHash = h
  if db.any keyMatch then
    updateFirst db keyMatch
      (fun r => { r with translatedText := translatedText, updatedAt := now })
  else
    db ++ [{ bookId := bookId, sentenceHash := h, originalText := originalText,
             translatedText := translatedText, createdAt := now, updatedAt := now }]

/-- The progress expression of the service,
`Math.min(100, Math.round((completed / total) * 100))`
(TranslationTaskService.ts:147,208,245), for `total ≥ 1` (every evaluation in
the code has `total ≥ 1`).  `Math.round` on a non-negative rational is
floor(x + 1/2), i.e. `(200c + t) / (2t)` in integer division. -/
def progressCalc (completed total : Nat) : Nat :=
  min 100 ((200 * completed + total) / (2 * total))

/-- The full JS expression including `total = 0`: `completed / 0` is `NaN`
(or `Infinity`), `Math.round`/`Math.min` propagate it, so the expression has
no numeric value — modelled as `none`. -/
def jsProgress (completed total : Nat) : Option Nat :=
  if total = 0 then none else some (progressCalc completed total)

/-- Modelled from the spec: the ProgressTracker pure function
`progress(completed, total) = clamp(round(completed/total*100), 0, 100)`,
with `total == 0` treated as `100` (spec §4.3). -/
def specProgress (completed total : Nat) : Nat :=
  if total = 0 then 100 else max 0 (min 100 ((200 * completed + total) / (2 * total)))

/-- One sentence work unit (TranslationTaskService.ts:14). -/
structure Sentence where
  text : Str
  chapterIndex : Nat
  sentenceIndex : Nat
deriving DecidableEq, Repr

/-- `TranslationTask.status` (TranslationTaskService.ts:19). -/
inductive TaskStatus
  | running
  | paused
  | completed
  | failed
deriving DecidableEq, Repr

/-- The `TranslationTask` record (TranslationTaskService.ts:11-23).
`errMsg` models the `error?: string` field. -/
structure TranslationTask where
  bookId : Str
  bookTitle : Str
  sentences : List Sentence
  batchSize : Nat
  totalSentences : Nat
  completedSentences : Nat
  progress : Nat
  status : TaskStatus
  startTime : Nat
  endTime : Option Nat
  errMsg : Option Str
deriving DecidableEq, Repr

/-- Position of the suspended `executeTranslation` coroutine inside its
control flow: at the top of a `for` window iteration (about to run the
cancellation check), inside the per-unit fallback loop at unit `k` of the
current window, or past the `for` (about to run the completion block). -/
inductive Phase
  | boundary
  | fallback (k : Nat)
  | finale
deriving DecidableEq, Repr

/-- The local state of one `executeTranslation` activation: the values
destructured from `this.currentTask` at entry (TranslationTaskService.ts:176),
the local `completed` counter, the window index `i`, and the control-flow
position.  Later mutations of `currentTask.sentences` do not affect the
captured `sentences` list. -/
structure LoopFrame where
  bookId : Str
  sentences : List Sentence
  batchSize : Nat
  totalSentences : Nat
  completed : Nat
  i : Nat
  phase : Phase
deriving DecidableEq, Repr

/-- The user-visible antd messages emitted by the service, in order. -/
inductive Msg
  | errNoModel
  | allCached
  | startInfo
  | pauseInfo
  | resumeInfo
  | stopInfo
  | doneSuccess
  | failErr
deriving DecidableEq, Repr

/-- The whole observable state of the singleton service plus its collaborator
state: `currentTask`, the abort controller (`none` = field is null,
`some b` = a controller whose `signal.aborted` is `b`), the Dexie table, the
(at most one, see `stepStart`/`stepResume`) suspended execution loop, the
chronological list of `notify()` snapshots, the emitted messages, counters of
`client.completions` invocations (total, and fallback-path only), and a
logical `Date.now()` clock that advances at every step. -/
structure Sys where
  currentTask : Option TranslationTask
  abortState : Option Bool
  db : DB
  loop : Option LoopFrame
  notified : List (Option TranslationTask)
  msgs : List Msg
  llmCalls : Nat
  fallbackCalls : Nat
  clock : Nat
deriving DecidableEq, Repr

/-- `this.abortController?.signal.aborted` is truthy. -/
def isAborted (s : Sys) : Bool :=
  s.abortState = some true

/-- `this.currentTask && this.currentTask.status === 'running'`. -/
def hasRunningTask (s : Sys) : Bool :=
  match s.currentTask with
  | some t => t.status = TaskStatus.running
  | none => false

/-- `this.notify()`: broadcast the current task snapshot to all listeners
(recorded chronologically). -/
def pushNotify (s : Sys) : Sys :=
  { s with notified := s.notified ++ [s.currentTask] }

/-- Emit an antd message. -/
def pushMsg (s : Sys) (m : Msg) : Sys :=
  { s with msgs := s.msgs ++ [m] }

/-- Advance the `Date.now()` clock at the end of a step. -/
def tick (s : Sys) : Sys :=
  { s with clock := s.clock + 1 }

/-- `stopTranslation` (TranslationTaskService.ts:309-318): if a task exists,
abort the current controller, discard the task, notify listeners with `null`
and emit the stop message.  (The final field writes to the discarded task
object are unobservable once `currentTask` is null.) -/
def stopSem (s : Sys) : Sys :=
  match s.currentTask with
  | none => s
  | some _ =>
      let s1 : Sys := { s with currentTask := none,
                               abortState := s.abortState.map (fun _ => true) }
      pushMsg (pushNotify s1) Msg.stopInfo

/-- The window of the current iteration,
`sentences.slice(i, Math.min(i + batchSize, sentences.length))`
(TranslationTaskService.ts:191). -/
def currentBatch (fr : LoopFrame) : List Sentence :=
  (fr.sentences.drop fr.i).take fr.batchSize

/-- The Map built inside `translateBatch` (TranslationTaskService.ts:99-105)
from the positional parse results: for each window position with a truthy
parsed translation, `translations.set(sentence.text, translation)`.
`tmap` is the parsed `translationMap` restricted to in-range positions
(out-of-range tags are dropped by the parser and never read afterwards);
`none` = no line with this tag, `some []` = a line whose payload trimmed to
the empty (falsy) string. -/
def buildTranslations (batch : List Sentence) (tmap : List (Option Str)) :
    List (Str × Str) :=
  (batch.enum).foldl
    (fun m su =>
      match (tmap.getD su.1 none) with
      | some tr => if tr ≠ [] then mapSet m su.2.text tr else m
      | none => m)
    []

/-- The save loop after a successful batch call
(TranslationTaskService.ts:198-203): persist each unit whose translation is
truthy and differs verbatim from the original. -/
def saveBatchLoop (db : DB) (bookId : Str) (batch : List Sentence)
    (translations : List (Str × Str)) (now : Nat) : DB :=
  batch.foldl
    (fun db s =>
      match mapGet translations s.text with
      | some tr => if tr ≠ [] ∧ tr ≠ s.text then saveTranslation db bookId s.text tr now
                   else db
      | none => db)
    db

/-- The events driving the system: the synchronous control-surface calls, and
the resumption of the suspended execution loop at each of its cooperative
checkpoints, carrying the outcome the external Translator produced there. -/
inductive Ev
  | start (modelConfigured : Bool) (bookId bookTitle : Str)
      (allSentences : List Sentence) (batchSize : Nat)
  | pause
  | resume
  | stop
  | clearCompleted
  | batchOk (tmap : List (Option Str))
  | batchFail
  | fallbackUnit (result : Option Str)
  | fallbackAdvance
  | loopExit
  | finishLoop
deriving DecidableEq, Repr

/-- Is this a `start` event (used to state per-job monotonicity: `start`
discards the current Job and creates a fresh one)? -/
def isStartEv : Ev → Bool
  | Ev.start _ _ _ _ _ => true
  | _ => false

/-- `startTranslation` (TranslationTaskService.ts:116-170).  If a running
task exists, `stopTranslation` runs first; then the LLM-model guard; then the
bulk cache query; an empty miss list reports "already cached" and returns
without creating a task; otherwise the task is created, a fresh abort
controller installed, listeners notified, and `executeTranslation` launched.
A launch while another loop activation is still suspended would create a
second concurrent loop; such schedules are outside this model (`none`). -/
def stepStartCore (s1 : Sys) (modelConfigured : Bool) (bookId bookTitle : Str)
    (allSentences : List Sentence) (batchSize : Nat) : Option Sys :=
  if modelConfigured = false then
    some (tick (pushMsg s1 Msg.errNoModel))
  else
    let cached := getBatchTranslations s1.db bookId (allSentences.map (·.text))
    let need := allSentences.filter (fun u => ¬ mapHas cached u.text)
    if need = [] then
      some (tick (pushMsg s1 Msg.allCached))
    else
      match s1.loop with
      | some _ => none
      | none =>
          let alreadyCached := allSentences.length - need.length
          let t : TranslationTask :=
            { bookId := bookId, bookTitle := bookTitle, sentences := need,
              batchSize := batchSize, totalSentences := allSentences.length,
              completedSentences := alreadyCached,
              progress := progressCalc alreadyCached allSentences.length,
              status := TaskStatus.running, startTime := s1.clock,
              endTime := none, errMsg := none }
          let s2 := pushMsg (pushNotify { s1 with currentTask := some t,
                                                  abortState := some false })
                      Msg.startInfo
          let fr : LoopFrame :=
            { bookId := bookId, sentences := need, batchSize := batchSize,
              totalSentences := allSentences.length,
              completed := alreadyCached, i := 0, phase := Phase.boundary }
          some (tick { s2 with loop := some fr })

/-- `startTranslation`, step one (TranslationTaskService.ts:122-125): if a
running task exists, `stopTranslation` runs first; then the rest of the
call (`stepStartCore`). -/
def stepStart (s : Sys) (modelConfigured : Bool) (bookId bookTitle : Str)
    (allSentences : List Sentence) (batchSize : Nat) : Option Sys :=
  stepStartCore (if hasRunningTask s then stopSem s else s)
    modelConfigured bookId bookTitle allSentences batchSize

/-- `pauseTranslation` (TranslationTaskService.ts:277-284): only from a
running task — set `status = 'paused'`, abort the controller, notify.
No other field changes (in particular `endTime` is untouched). -/
def stepPause (s : Sys) : Option Sys :=
  match s.currentTask with
  | some t =>
      if t.status = TaskStatus.running then
        let t' := { t with status := TaskStatus.paused }
        some (tick (pushMsg (pushNotify
          { s with currentTask := some t',
                   abortState := s.abortState.map (fun _ => true) }) Msg.pauseInfo))
      else some (tick s)
  | none => some (tick s)

/-- `resumeTranslation` (TranslationTaskService.ts:287-306): only from a
paused task — recompute the unprocessed suffix of the stored `sentences`
list by slicing at `completedSentences - (totalSentences - sentences.length)`,
install it, set `status = 'running'`, fresh abort controller, notify, and
relaunch `executeTranslation`.  Relaunching while the previous loop
activation is still suspended is outside this model (`none`): cooperative
cancellation means the old activation observes the abort at its next
checkpoint before a relaunch happens. -/
def stepResume (s : Sys) : Option Sys :=
  match s.currentTask with
  | some t =>
      if t.status = TaskStatus.paused then
        match s.loop with
        | some _ => none
        | none =>
            let initialCached := t.totalSentences - t.sentences.length
            let translatedFromNeedList := t.completedSentences - initialCached
            let remaining := t.sentences.drop translatedFromNeedList
            let t' := { t with sentences := remaining,
                               status := TaskStatus.running }
            let s1 := pushMsg (pushNotify { s with currentTask := some t',
                                                   abortState := some false })
                        Msg.resumeInfo
            let fr : LoopFrame :=
              { bookId := t.bookId, sentences := remaining,
                batchSize := t.batchSize, totalSentences := t.totalSentences,
                completed := t.completedSentences, i := 0,
                phase := Phase.boundary }
            some (tick { s1 with loop := some fr })
      else some (tick s)
  | none => some (tick s)

/-- The cancellation check at the top of a window iteration, and the natural
exhaustion of the `for` loop (TranslationTaskService.ts:185-189).  Breaking
moves to the completion block; a null `currentTask` with a non-aborted
controller makes the status read throw, which the outer catch swallows
(null guard), ending the activation. -/
def stepLoopExit (s : Sys) : Option Sys :=
  match s.loop with
  | none => none
  | some fr =>
      if fr.phase = Phase.boundary then
        if isAborted s then
          some (tick { s with loop := some { fr with phase := Phase.finale } })
        else
          match s.currentTask with
          | none => some (tick { s with loop := none })
          | some t =>
              if t.status ≠ TaskStatus.running then
                some (tick { s with loop := some { fr with phase := Phase.finale } })
              else if fr.sentences.length ≤ fr.i then
                some (tick { s with loop := some { fr with phase := Phase.finale } })
              else none
      else none

/-- A window whose batch call succeeds (TranslationTaskService.ts:193-210):
one `client.completions` call, persist the accepted translations, advance
`completed` by the window length, recompute progress, notify, move to the
next window. -/
def stepBatchOk (s : Sys) (tmap : List (Option Str)) : Option Sys :=
  match s.loop, s.currentTask with
  | some fr, some t =>
      if fr.phase = Phase.boundary ∧ isAborted s = false ∧
         t.status = TaskStatus.running ∧ fr.i < fr.sentences.length then
        let batch := currentBatch fr
        let translations := buildTranslations batch tmap
        let db' := saveBatchLoop s.db fr.bookId batch translations s.clock
        let completed' := fr.completed + batch.length
        let t' := { t with completedSentences := completed',
                           progress := progressCalc completed' fr.totalSentences }
        some (tick (pushNotify
          { s with db := db', currentTask := some t',
                   llmCalls := s.llmCalls + 1,
                   loop := some { fr with completed := completed',
                                          i := fr.i + fr.batchSize } }))
      else none
  | _, _ => none

/-- A window whose batch call throws (TranslationTaskService.ts:211-214):
one `client.completions` call, then enter the per-unit fallback loop. -/
def stepBatchFail (s : Sys) : Option Sys :=
  match s.loop, s.currentTask with
  | some fr, some t =>
      if fr.phase = Phase.boundary ∧ isAborted s = false ∧
         t.status = TaskStatus.running ∧ fr.i < fr.sentences.length then
        some (tick { s with llmCalls := s.llmCalls + 1,
                            loop := some { fr with phase := Phase.fallback 0 } })
      else none
  | _, _ => none

/-- One unit of the fallback loop (TranslationTaskService.ts:215-240): the
per-unit cancellation check passes, a single-unit `client.completions` call
is made; on success a truthy translation differing from the original is
persisted, on failure the unit is logged and skipped. -/
def stepFallbackUnit (s : Sys) (result : Option Str) : Option Sys :=
  match s.loop, s.currentTask with
  | some fr, some t =>
      match fr.phase with
      | Phase.fallback k =>
          let batch := currentBatch fr
          if isAborted s = false ∧ t.status = TaskStatus.running ∧
             k < batch.length then
            match batch[k]? with
            | some unit =>
                let db' := match result with
                  | some tr =>
                      if tr ≠ [] ∧ tr ≠ unit.text then
                        saveTranslation s.db fr.bookId unit.text tr s.clock
                      else s.db
                  | none => s.db
                some (tick { s with db := db',
                                    llmCalls := s.llmCalls + 1,
                                    fallbackCalls := s.fallbackCalls + 1,
                                    loop := some { fr with phase := Phase.fallback (k + 1) } })
            | none => none
          else none
      | _ => none
  | _, _ => none

/-- Leaving the fallback loop — by exhaustion or by its cancellation check —
and running the advance block after it (TranslationTaskService.ts:242-247):
`completed` advances by the *full* window length regardless of how many
fallback units were attempted or succeeded, progress is recomputed, listeners
notified.  With a null `currentTask` the field write (or the check itself)
throws and the outer catch ends the activation. -/
def stepFallbackAdvance (s : Sys) : Option Sys :=
  match s.loop with
  | none => none
  | some fr =>
      match fr.phase with
      | Phase.fallback k =>
          let batch := currentBatch fr
          match s.currentTask with
          | none => some (tick { s with loop := none })
          | some t =>
              if batch.length ≤ k ∨ isAborted s = true ∨
                 t.status ≠ TaskStatus.running then
                let completed' := fr.completed + batch.length
                let t' := { t with completedSentences := completed',
                                   progress := progressCalc completed' fr.totalSentences }
                some (tick (pushNotify
                  { s with currentTask := some t',
                           loop := some { fr with completed := completed',
                                                  i := fr.i + fr.batchSize,
                                                  phase := Phase.boundary } }))
              else none
      | _ => none

/-- The completion block after the `for` loop
(TranslationTaskService.ts:254-263): if the task is still running, mark it
completed, stamp `endTime`, force `progress = 100` and
`completedSentences = totalSentences`, message and notify; otherwise (paused,
or null — where the status read throws into the outer catch) nothing is
written.  Either way the activation ends. -/
def stepFinishLoop (s : Sys) : Option Sys :=
  match s.loop with
  | none => none
  | some fr =>
      if fr.phase = Phase.finale then
        match s.currentTask with
        | none => some (tick { s with loop := none })
        | some t =>
            if t.status = TaskStatus.running then
              let t' := { t with status := TaskStatus.completed,
                                 endTime := some s.clock,
                                 progress := 100,
                                 completedSentences := fr.totalSentences }
              some (tick (pushNotify (pushMsg
                { s with currentTask := some t', loop := none } Msg.doneSuccess)))
            else some (tick { s with loop := none })
      else none

/-- The step function of the whole system. -/
def step (s : Sys) : Ev → Option Sys
  | Ev.start m bid btitle all bs => stepStart s m bid btitle all bs
  | Ev.pause => stepPause s
  | Ev.resume => stepResume s
  | Ev.stop => some (tick (stopSem s))
  | Ev.clearCompleted =>
      match s.currentTask with
      | some t =>
          if t.status = TaskStatus.completed then
            some (tick (pushNotify { s with currentTask := none }))
          else some (tick s)
      | none => some (tick s)
  | Ev.batchOk tmap => stepBatchOk s tmap
  | Ev.batchFail => stepBatchFail s
  | Ev.fallbackUnit r => stepFallbackUnit s r
  | Ev.fallbackAdvance => stepFallbackAdvance s
  | Ev.loopExit => stepLoopExit s
  | Ev.finishLoop => stepFinishLoop s

/-- Run a list of events. -/
def run (s : Sys) : List Ev → Option Sys
  | [] => some s
  | e :: es =>
      match step s e with
      | some s' => run s' es
      | none => none

/-- The freshly constructed singleton service with an empty cache. -/
def initSys : Sys :=
  { currentTask := none, abortState := none, db := [], loop := none,
    notified := [], msgs := [], llmCalls := 0, fallbackCalls := 0, clock := 0 }

/-- A system state reachable from the fresh service by some event schedule. -/
def Reachable (s : Sys) : Prop :=
  ∃ evs, run initSys evs = some s

/-! Concrete inputs used by the scenario theorems and witnesses. -/

/-- The text "ab" (code units 97, 98): hash value 31*97+98 = 3105. -/
def textAB : Str := [97, 98]

/-- The text "bC" (code units 98, 67): hash value 31*98+67 = 3105 — a genuine
collision of `generateSentenceHash` with `textAB`. -/
def textBC : Str := [98, 67]

/-- An owner id for the collision example. -/
def collOwner : Str := [120]

/-- A cache holding one entry of `collOwner`: originalText `textBC`, stored
under its own hash (as `saveTranslation` would store it). -/
def collDB : DB :=
  [{ bookId := collOwner, sentenceHash := generateSentenceHash textBC,
     originalText := textBC, translatedText := [88], createdAt := 0,
     updatedAt := 0 }]

/-- Work units for Scenario A: "A.", "B.", "C.", "D.". -/
def unitA : Sentence := { text := [65, 46], chapterIndex := 0, sentenceIndex := 0 }

/-- Scenario A unit "B.". -/
def unitB : Sentence := { text := [66, 46], chapterIndex := 0, sentenceIndex := 1 }

/-- Scenario A unit "C.". -/
def unitC : Sentence := { text := [67, 46], chapterIndex := 0, sentenceIndex := 2 }

/-- Scenario A unit "D.". -/
def unitD : Sentence := { text := [68, 46], chapterIndex := 0, sentenceIndex := 3 }

/-- A book id for the scenarios. -/
def bkId : Str := [107]

/-- Scenario A, phase 1: start with 4 units, batch size 2, empty cache;
window 1 succeeds; pause lands during the inter-window delay; the loop
observes cancellation at the next boundary and ends without completing. -/
def evsScenA1 : List Ev :=
  [Ev.start true bkId [] [unitA, unitB, unitC, unitD] 2,
   Ev.batchOk [some [1], some [2]],
   Ev.pause, Ev.loopExit, Ev.finishLoop]

/-- Scenario A, phase 2: resume. -/
def evsScenA2 : List Ev := evsScenA1 ++ [Ev.resume]

/-- Scenario A, phase 3: the relaunched loop finishes the remaining window. -/
def evsScenA3 : List Ev :=
  evsScenA2 ++ [Ev.batchOk [some [3], some [4]], Ev.loopExit, Ev.finishLoop]

/-- Units for the Scenario C window. -/
def unitP : Sentence := { text := [80], chapterIndex := 0, sentenceIndex := 0 }

/-- Scenario C unit 2. -/
def unitQ : Sentence := { text := [81], chapterIndex := 0, sentenceIndex := 1 }

/-- Scenario C unit 3. -/
def unitR : Sentence := { text := [82], chapterIndex := 0, sentenceIndex := 2 }

/-- Scenario C: a single 3-unit window whose batch call throws; each flag
says whether the corresponding per-unit fallback call succeeded. -/
def evsScenC (b1 b2 b3 : Bool) : List Ev :=
  [Ev.start true bkId [] [unitP, unitQ, unitR] 3, Ev.batchFail,
   Ev.fallbackUnit (if b1 then some [90] else none),
   Ev.fallbackUnit (if b2 then some [91] else none),
   Ev.fallbackUnit (if b3 then some [92] else none),
   Ev.fallbackAdvance]

/-- Six units for the mid-fallback cancellation scenario (C10). -/
def unitW1 : Sentence := { text := [101], chapterIndex := 0, sentenceIndex := 0 }

/-- C10 unit 2. -/
def unitW2 : Sentence := { text := [102], chapterIndex := 0, sentenceIndex := 1 }

/-- C10 unit 3. -/
def unitW3 : Sentence := { text := [103], chapterIndex := 0, sentenceIndex := 2 }

/-- C10 unit 4. -/
def unitW4 : Sentence := { text := [104], chapterIndex := 0, sentenceIndex := 3 }

/-- C10 unit 5. -/
def unitW5 : Sentence := { text := [105], chapterIndex := 0, sentenceIndex := 4 }

/-- C10 unit 6. -/
def unitW6 : Sentence := { text := [106], chapterIndex := 0, sentenceIndex := 5 }

/-- C10 scenario, phase 1: 6 units, batch size 3; window 1's batch call
throws; the first fallback unit succeeds; pause is requested; the fallback
check observes it, the window still advances by 3, and the loop halts. -/
def evsAbandon1 : List Ev :=
  [Ev.start true bkId [] [unitW1, unitW2, unitW3, unitW4, unitW5, unitW6] 3,
   Ev.batchFail, Ev.fallbackUnit (some [201]), Ev.pause, Ev.fallbackAdvance,
   Ev.loopExit, Ev.finishLoop]

/-- C10 scenario, phase 2: resume slices the original pending list at 3. -/
def evsAbandon2 : List Ev := evsAbandon1 ++ [Ev.resume]

/-- C10 scenario, phase 3: the remaining window succeeds and the job
completes — units 2 and 3 were never attempted again. -/
def evsAbandon3 : List Ev :=
  evsAbandon2 ++
    [Ev.batchOk [some [204], some [205], some [206]], Ev.loopExit, Ev.finishLoop]

/-- Reaching a state with a running task (used to refute C5): one unit,
batch size 5, loop still suspended at its first boundary. -/
def evsRunning : List Ev := [Ev.start true bkId [] [unitW1] 5]

/-- Reaching a state with a *paused* task whose first unit is cached (used to
refute C6): two units, batch size 1; window 1 succeeds and caches unit 1;
pause; the loop winds down. -/
def evsPausedCached : List Ev :=
  [Ev.start true bkId [] [unitW1, unitW2] 1,
   Ev.batchOk [some [200]],
   Ev.pause, Ev.loopExit, Ev.finishLoop]

/-- The C6 counterexample schedule: after `evsPausedCached`, a start whose
single unit is already cached. -/
def evsAllCachedStart : List Ev :=
  evsPausedCached ++ [Ev.start true bkId [] [unitW1] 1]

/-! Invariants of the reachable states. -/

/-- Well-formedness of a task snapshot: at least one unit, the completed
counter bounded by the total, the progress field consistent with the
progress expression, and the initial-cache-hit count
`totalSentences - sentences.length` at most `completedSentences` with
`sentences` never longer than the total (what `resumeTranslation`'s slice
arithmetic relies on). -/
def taskOK (t : TranslationTask) : Prop :=
  1 ≤ t.totalSentences ∧
  t.completedSentences ≤ t.totalSentences ∧
  t.progress = progressCalc t.completedSentences t.totalSentences ∧
  t.totalSentences - t.sentences.length ≤ t.completedSentences ∧
  t.sentences.length ≤ t.totalSentences

/-- Well-formedness of a suspended loop activation: the local counter plus
the not-yet-processed suffix never exceed the captured total. -/
def frameOK (fr : LoopFrame) : Prop :=
  fr.completed + (fr.sentences.length - fr.i) ≤ fr.totalSentences ∧
  1 ≤ fr.totalSentences

/-- When both a task and a suspended activation exist, the activation belongs
to the task: same total, and the local `completed` mirrors
`completedSentences`. -/
def linkOK (s : Sys) : Prop :=
  ∀ fr t, s.loop = some fr → s.currentTask = some t →
    fr.totalSentences = t.totalSentences ∧ fr.completed = t.completedSentences

/-- The inductive invariant of the system. -/
def SysInv (s : Sys) : Prop :=
  (∀ t, s.currentTask = some t → taskOK t) ∧
  (∀ fr, s.loop = some fr → frameOK fr) ∧
  linkOK s ∧
  (∀ o ∈ s.notified, ∀ t, o = some t → taskOK t)

/-- A placeholder task (used only as the `getD` default of states that
provably hold a task). -/
def taskArb : TranslationTask :=
  { bookId := [], bookTitle := [], sentences := [], batchSize := 0,
    totalSentences := 0, completedSentences := 0, progress := 0,
    status := TaskStatus.running, startTime := 0, endTime := none,
    errMsg := none }

/-- A placeholder frame (used only as the `getD` default of states that
provably hold a suspended activation). -/
def frameArb : LoopFrame :=
  { bookId := [], sentences := [], batchSize := 0, totalSentences := 0,
    completed := 0, i := 0, phase := Phase.boundary }

/-- Scenario A up to (and including) the pause call. -/
def evsScenAPause : List Ev :=
  [Ev.start true bkId [] [unitA, unitB, unitC, unitD] 2,
   Ev.batchOk [some [1], some [2]], Ev.pause]

/-- The Scenario-A state after the pause wound the loop down. -/
def sScenA1 : Sys := (run initSys evsScenA1).getD initSys

/-- Its (paused) task. -/
def taskScenA1 : TranslationTask := sScenA1.currentTask.getD taskArb

/-- A reachable state holding a running task whose loop is suspended at its
first boundary. -/
def sRunning : Sys := (run initSys evsRunning).getD initSys

/-- Its running task. -/
def taskRunning : TranslationTask := sRunning.currentTask.getD taskArb

/-- Reaching the middle of a fallback loop with cancellation requested:
6 units, batch size 3, batch call throws, one fallback unit done, pause. -/
def evsMidFallback : List Ev :=
  [Ev.start true bkId [] [unitW1, unitW2, unitW3, unitW4, unitW5, unitW6] 3,
   Ev.batchFail, Ev.fallbackUnit (some [201]), Ev.pause]

/-- The aborted-mid-fallback state. -/
def sMidFallback : Sys := (run initSys evsMidFallback).getD initSys

/-- Its frame (inside the fallback loop at unit 1). -/
def frameMidFallback : LoopFrame := sMidFallback.loop.getD frameArb

/-- Its (paused) task. -/
def taskMidFallback : TranslationTask := sMidFallback.currentTask.getD taskArb

/-- Just the start of the Scenario-C job. -/
def evsStartedC : List Ev := [Ev.start true bkId [] [unitP, unitQ, unitR] 3]

/-- The state right after that start. -/
def sStartedC : Sys := (run initSys evsStartedC).getD initSys

/-- Its running task. -/
def taskStartedC : TranslationTask := sStartedC.currentTask.getD taskArb

/-- Its frame, at the first boundary. -/
def frameStartedC : LoopFrame := sStartedC.loop.getD frameArb

/-- The paused-with-cached-unit state reached by `evsPausedCached`. -/
def sPausedCached : Sys := (run initSys evsPausedCached).getD initSys

/-! Theorems. -/

/-- Membership in a JS-Map after `set`: the pair is the new binding or an old
one. -/
theorem mem_mapSet {m : List (Str × Str)} {k v : Str} {p : Str × Str}
    (h : p ∈ mapSet m k v) : p = (k, v) ∨ p ∈ m := by
  unfold mapSet at h
  split at h
  · rcases List.mem_map.1 h with ⟨q, hq, he⟩
    by_cases hqk : q.1 = k
    · rw [if_pos hqk] at he
      exact Or.inl he.symm
    · rw [if_neg hqk] at he
      exact Or.inr (he ▸ hq)
  · rcases List.mem_append.1 h with h | h
    · exact Or.inr h
    · exact Or.inl (List.mem_singleton.1 h)

/-- Every binding produced by folding `set` over a record list comes from one
of the records (or was already in the accumulator). -/
theorem mem_foldl_mapSet :
    ∀ (rs : List TranslationRecord) (m : List (Str × Str)) (p : Str × Str),
      p ∈ rs.foldl (fun m r => mapSet m r.originalText r.translatedText) m →
      (∃ r ∈ rs, p = (r.originalText, r.translatedText)) ∨ p ∈ m := by
  intro rs
  induction rs with
  | nil => intro m p h; exact Or.inr h
  | cons r rs ih =>
      intro m p h
      rcases ih _ p h with ⟨r', hr', he⟩ | hm
      · exact Or.inl ⟨r', List.mem_cons_of_mem _ hr', he⟩
      · rcases mem_mapSet hm with he | hm'
        · exact Or.inl ⟨r, List.mem_cons_self _ _, he⟩
        · exact Or.inr hm'

/-- Provenance of `getBatchTranslations` bindings: each one is the stored
`(originalText, translatedText)` of a record of this `bookId` whose hash is
among the queried hashes. -/
theorem mem_getBatchTranslations {db : DB} {owner : Str} {texts : List Str}
    {p : Str × Str} (h : p ∈ getBatchTranslations db owner texts) :
    ∃ r, r ∈ db ∧ r.bookId = owner ∧
      r.sentenceHash ∈ texts.map generateSentenceHash ∧
      p = (r.originalText, r.translatedText) := by
  unfold getBatchTranslations at h
  rcases mem_foldl_mapSet _ _ _ h with ⟨r, hr, he⟩ | hm
  · have hf := List.mem_filter.1 hr
    have hcond : r.bookId = owner ∧ r.sentenceHash ∈ texts.map generateSentenceHash := by
      have := hf.2
      simpa using this
    exact ⟨r, hf.1, hcond.1, hcond.2, he⟩
  · cases hm

/-- Claim C8: `batchGet(owner, texts)` never returns an entry belonging to a
different owner — every binding in the returned map is the stored
`(originalText, translatedText)` of a record whose `bookId` IS the queried
owner, for every cache state and every query (hash collisions across owners
included, since the `bookId` filter runs before the hash filter). -/
theorem C8_batchGet_owner_scoped (db : DB) (owner : Str) (texts : List Str)
    (k v : Str) (h : (k, v) ∈ getBatchTranslations db owner texts) :
    ∃ r, r ∈ db ∧ r.bookId = owner ∧ r.originalText = k ∧
      r.translatedText = v := by
  rcases mem_getBatchTranslations h with ⟨r, hr, hb, _, he⟩
  exact ⟨r, hr, hb, congrArg Prod.fst he.symm, congrArg Prod.snd he.symm⟩

/-- Witness for C8 at a concrete cache and query: the collision cache returns
the binding `(textBC, [88])` for owner `collOwner`, and the theorem locates
its owning record. -/
theorem C8_batchGet_owner_scoped_witness :
    ∃ r, r ∈ collDB ∧ r.bookId = collOwner ∧ r.originalText = textBC ∧
      r.translatedText = [88] :=
  C8_batchGet_owner_scoped collDB collOwner [textAB] textBC [88] (by decide)

/-- Claim C9: every key of the map returned by `batchGet(owner, texts)` is
the exact stored `originalText` of some record of that owner whose hash is
among the queried hashes; a queried text differing from every stored
original text is never assigned a translation (even under a hash collision);
and under a same-owner collision the map can contain a key that was not
among the queried texts (the concrete collision `textAB`/`textBC`). -/
theorem C9_batchGet_key_semantics :
    (∀ (db : DB) (owner : Str) (texts : List Str) (k v : Str),
        (k, v) ∈ getBatchTranslations db owner texts →
        ∃ r, r ∈ db ∧ r.bookId = owner ∧ r.originalText = k ∧
          r.sentenceHash ∈ texts.map generateSentenceHash) ∧
    (∀ (db : DB) (owner : Str) (texts : List Str) (q : Str),
        q ∈ texts → (∀ r ∈ db, r.originalText ≠ q) →
        mapGet (getBatchTranslations db owner texts) q = none) ∧
    (getBatchTranslations collDB collOwner [textAB] = [(textBC, [88])] ∧
      textBC ∉ [textAB]) := by
  refine ⟨?_, ?_, by decide⟩
  · intro db owner texts k v h
    rcases mem_getBatchTranslations h with ⟨r, hr, hb, hh, he⟩
    exact ⟨r, hr, hb, congrArg Prod.fst he.symm, hh⟩
  · intro db owner texts q _ hnone
    cases hq : mapGet (getBatchTranslations db owner texts) q with
    | none => rfl
    | some v =>
        exfalso
        unfold mapGet at hq
        rcases Option.map_eq_some'.1 hq with ⟨p, hfind, _⟩
        have hmem := List.mem_of_find?_eq_some hfind
        have hkey : p.1 = q := by
          have := List.find?_some hfind
          simpa using this
        rcases mem_getBatchTranslations hmem with ⟨r, hr, _, _, he⟩
        exact hnone r hr (by rw [he] at hkey; exact hkey)

/-- Witness for C9 at a concrete cache and query (first conjunct). -/
theorem C9_batchGet_key_semantics_witness :
    ∃ r, r ∈ collDB ∧ r.bookId = collOwner ∧ r.originalText = textBC ∧
      r.sentenceHash ∈ [textAB].map generateSentenceHash :=
  C9_batchGet_key_semantics.1 collDB collOwner [textAB] textBC [88] (by decide)

/-- Counterexample to claim C7 as stated: at `total = 0` the code's
expression `Math.min(100, Math.round(completed/total*100))` is NaN
(`0/0` → NaN, propagated), not the claimed `100`. -/
theorem C7_total_zero_counterexample :
    jsProgress 0 0 = none ∧ specProgress 0 0 = 100 ∧
    jsProgress 0 0 ≠ some (specProgress 0 0) := by decide

/-- Claim C7 (amended): for every `total ≥ 1` — and every evaluation site in
the code has `total ≥ 1`, since a Job is only created with at least one
unit — the code's progress expression equals the spec's pure function
`clamp(round(completed/total*100), 0, 100)` (the lower clamp being vacuous on
non-negative counts). -/
theorem C7_progress_formula (completed total : Nat) (h : 0 < total) :
    jsProgress completed total = some (specProgress completed total) := by
  unfold jsProgress specProgress progressCalc
  rw [if_neg (Nat.pos_iff_ne_zero.mp h), if_neg (Nat.pos_iff_ne_zero.mp h),
    Nat.zero_max]

/-- Witness for the amended C7 at a concrete input. -/
theorem C7_progress_formula_witness :
    0 < 4 ∧ jsProgress 1 4 = some (specProgress 1 4) :=
  ⟨by decide, C7_progress_formula 1 4 (by decide)⟩

/-- `progressCalc n n = 100` for `n ≥ 1` (the completion block's forced
`progress = 100` agrees with the formula). -/
theorem progressCalc_self {n : Nat} (h : 1 ≤ n) : progressCalc n n = 100 := by
  unfold progressCalc
  have h2 : 0 < 2 * n := by omega
  have e1 : 200 * n + n = 2 * n * 100 + n := by ring
  rw [e1, Nat.mul_add_div h2, Nat.div_eq_of_lt (by omega)]
  simp

/-- Length of the current window. -/
theorem currentBatch_length (fr : LoopFrame) :
    (currentBatch fr).length = min fr.batchSize (fr.sentences.length - fr.i) := by
  simp [currentBatch]

/-- Appending a snapshot keeps the notified-snapshot invariant. -/
theorem notifiedOK_append {l : List (Option TranslationTask)}
    {o : Option TranslationTask}
    (hl : ∀ x ∈ l, ∀ t, x = some t → taskOK t)
    (ho : ∀ t, o = some t → taskOK t) :
    ∀ x ∈ l ++ [o], ∀ t, x = some t → taskOK t := by
  intro x hx
  rcases List.mem_append.1 hx with h | h
  · exact hl x h
  · rw [List.mem_singleton.1 h]
    exact ho

/-- `tick` only moves the clock. -/
theorem sysInv_tick {s : Sys} (h : SysInv s) : SysInv (tick s) := h

/-- `pushMsg` only appends a message. -/
theorem sysInv_pushMsg {s : Sys} {m : Msg} (h : SysInv s) :
    SysInv (pushMsg s m) := h

/-- `pushNotify` records the current snapshot, which is well-formed by the
invariant. -/
theorem sysInv_pushNotify {s : Sys} (h : SysInv s) : SysInv (pushNotify s) := by
  obtain ⟨h1, h2, h3, h4⟩ := h
  exact ⟨h1, h2, h3, notifiedOK_append h4 h1⟩

/-- `stopTranslation` preserves the invariant (it discards the task). -/
theorem sysInv_stopSem {s : Sys} (h : SysInv s) : SysInv (stopSem s) := by
  obtain ⟨h1, h2, h3, h4⟩ := h
  unfold stopSem
  cases hc : s.currentTask with
  | none => exact ⟨h1, h2, h3, h4⟩
  | some t =>
      refine ⟨?_, h2, ?_, ?_⟩
      · intro t' ht'
        exact Option.noConfusion ht'
      · intro fr t' _ hct
        exact Option.noConfusion hct
      · exact notifiedOK_append h4 (fun t ht => Option.noConfusion ht)

/-- The tail of `startTranslation` preserves the invariant. -/
theorem sysInv_stepStartCore {s1 s' : Sys} {m : Bool} {bid btitle : Str}
    {all : List Sentence} {bs : Nat} (h : SysInv s1)
    (he : stepStartCore s1 m bid btitle all bs = some s') : SysInv s' := by
  obtain ⟨h1, h2, h3, h4⟩ := h
  unfold stepStartCore at he
  by_cases hm : m = false
  · rw [if_pos hm] at he
    injection he with he
    subst he
    exact sysInv_tick (sysInv_pushMsg ⟨h1, h2, h3, h4⟩)
  · rw [if_neg hm] at he
    dsimp only at he
    set need := all.filter
      (fun u => ¬ mapHas (getBatchTranslations s1.db bid (all.map (·.text))) u.text)
      with hneed
    by_cases hn : need = []
    · rw [if_pos hn] at he
      injection he with he
      subst he
      exact sysInv_tick (sysInv_pushMsg ⟨h1, h2, h3, h4⟩)
    · rw [if_neg hn] at he
      cases hl : s1.loop with
      | some fr0 =>
          rw [hl] at he
          exact Option.noConfusion he
      | none =>
          rw [hl] at he
          dsimp only at he
          injection he with he
          subst he
          have hlen1 : 1 ≤ need.length := by
            rcases need with _ | ⟨x, xs⟩
            · exact absurd rfl hn
            · simp
          have hlen2 : need.length ≤ all.length := by
            rw [hneed]
            exact List.length_filter_le _ _
          have htOK : taskOK
              { bookId := bid, bookTitle := btitle, sentences := need,
                batchSize := bs, totalSentences := all.length,
                completedSentences := all.length - need.length,
                progress := progressCalc (all.length - need.length) all.length,
                status := TaskStatus.running, startTime := s1.clock,
                endTime := none, errMsg := none } := by
            unfold taskOK
            dsimp only
            exact ⟨by omega, by omega, rfl, by omega, by omega⟩
          refine ⟨?_, ?_, ?_, ?_⟩
          · intro t' ht'
            injection ht' with ht'
            rw [← ht']
            exact htOK
          · intro fr' hfr'
            injection hfr' with hfr'
            rw [← hfr']
            unfold frameOK
            dsimp only
            exact ⟨by omega, by omega⟩
          · intro fr' t' hfr' ht'
            injection hfr' with hfr'
            injection ht' with ht'
            rw [← hfr', ← ht']
            exact ⟨rfl, rfl⟩
          · exact notifiedOK_append h4 (fun t ht => by
              injection ht with ht
              rw [← ht]
              exact htOK)

/-- `pauseTranslation` preserves the invariant (only `status` and the abort
flag change). -/
theorem sysInv_stepPause {s s' : Sys} (h : SysInv s)
    (he : stepPause s = some s') : SysInv s' := by
  obtain ⟨h1, h2, h3, h4⟩ := h
  unfold stepPause at he
  cases hc : s.currentTask with
  | none =>
      rw [hc] at he
      dsimp only at he
      injection he with he
      subst he
      exact sysInv_tick ⟨h1, h2, h3, h4⟩
  | some t =>
      rw [hc] at he
      dsimp only at he
      by_cases hst : t.status = TaskStatus.running
      · rw [if_pos hst] at he
        injection he with he
        subst he
        have htOK : taskOK { t with status := TaskStatus.paused } := h1 t hc
        refine ⟨?_, h2, ?_, ?_⟩
        · intro t' ht'
          injection ht' with ht'
          rw [← ht']
          exact htOK
        · intro fr t' hfr ht'
          injection ht' with ht'
          rw [← ht']
          exact h3 fr t hfr hc
        · exact notifiedOK_append h4 (fun t' ht' => by
            injection ht' with ht'
            rw [← ht']
            exact htOK)
      · rw [if_neg hst] at he
        injection he with he
        subst he
        exact sysInv_tick ⟨h1, h2, h3, h4⟩

/-- `resumeTranslation` preserves the invariant: the slice arithmetic keeps
`completed + remaining = total`. -/
theorem sysInv_stepResume {s s' : Sys} (h : SysInv s)
    (he : stepResume s = some s') : SysInv s' := by
  obtain ⟨h1, h2, h3, h4⟩ := h
  unfold stepResume at he
  cases hc : s.currentTask with
  | none =>
      rw [hc] at he
      dsimp only at he
      injection he with he
      subst he
      exact sysInv_tick ⟨h1, h2, h3, h4⟩
  | some t =>
      rw [hc] at he
      dsimp only at he
      by_cases hst : t.status = TaskStatus.paused
      · rw [if_pos hst] at he
        cases hl : s.loop with
        | some fr0 =>
            rw [hl] at he
            exact Option.noConfusion he
        | none =>
            rw [hl] at he
            dsimp only at he
            injection he with he
            subst he
            obtain ⟨htot, hcle, hprog, hinit, hslen⟩ := h1 t hc
            have hrem : (t.sentences.drop
                (t.completedSentences - (t.totalSentences - t.sentences.length))).length =
                t.sentences.length -
                  (t.completedSentences - (t.totalSentences - t.sentences.length)) :=
              List.length_drop _ _
            have htOK : taskOK { t with
                sentences := t.sentences.drop
                  (t.completedSentences - (t.totalSentences - t.sentences.length)),
                status := TaskStatus.running } := by
              unfold taskOK
              dsimp only
              exact ⟨htot, hcle, hprog, by omega, by omega⟩
            refine ⟨?_, ?_, ?_, ?_⟩
            · intro t' ht'
              injection ht' with ht'
              rw [← ht']
              exact htOK
            · intro fr' hfr'
              injection hfr' with hfr'
              rw [← hfr']
              unfold frameOK
              dsimp only
              exact ⟨by omega, htot⟩
            · intro fr' t' hfr' ht'
              injection hfr' with hfr'
              injection ht' with ht'
              rw [← hfr', ← ht']
              exact ⟨rfl, rfl⟩
            · exact notifiedOK_append h4 (fun t' ht' => by
                injection ht' with ht'
                rw [← ht']
                exact htOK)
      · rw [if_neg hst] at he
        injection he with he
        subst he
        exact sysInv_tick ⟨h1, h2, h3, h4⟩


/-- The boundary check / loop exhaustion preserves the invariant (only the
phase, or the presence of the activation, changes). -/
theorem sysInv_stepLoopExit {s s' : Sys} (h : SysInv s)
    (he : stepLoopExit s = some s') : SysInv s' := by
  obtain ⟨h1, h2, h3, h4⟩ := h
  unfold stepLoopExit at he
  cases hl : s.loop with
  | none =>
      rw [hl] at he
      exact Option.noConfusion he
  | some fr =>
      rw [hl] at he
      dsimp only at he
      have hfrOK : frameOK fr := h2 fr hl
      by_cases hph : fr.phase = Phase.boundary
      · rw [if_pos hph] at he
        by_cases hab : isAborted s = true
        · rw [if_pos hab] at he
          injection he with he
          subst he
          refine ⟨h1, ?_, ?_, h4⟩
          · intro fr' hfr'
            injection hfr' with hfr'
            rw [← hfr']
            exact hfrOK
          · intro fr' t' hfr' ht'
            injection hfr' with hfr'
            rw [← hfr']
            exact h3 fr t' hl ht'
        · rw [if_neg hab] at he
          cases hc : s.currentTask with
          | none =>
              rw [hc] at he
              dsimp only at he
              injection he with he
              subst he
              refine ⟨?_, ?_, ?_, h4⟩
              · intro t' ht'
                exact Option.noConfusion ht'
              · intro fr' hfr'
                exact Option.noConfusion hfr'
              · intro fr' t' hfr' _
                exact Option.noConfusion hfr'
          | some t =>
              rw [hc] at he
              dsimp only at he
              have hkeep :
                  SysInv (tick
                    { s with
                      currentTask := some t,
                      loop := some { fr with phase := Phase.finale } }) := by
                refine ⟨?_, ?_, ?_, h4⟩
                · intro t' ht'
                  injection ht' with ht'
                  rw [← ht']
                  exact h1 t hc
                · intro fr' hfr'
                  injection hfr' with hfr'
                  rw [← hfr']
                  exact hfrOK
                · intro fr' t' hfr' ht'
                  injection hfr' with hfr'
                  injection ht' with ht'
                  rw [← hfr', ← ht']
                  exact h3 fr t hl hc
              by_cases hst : t.status ≠ TaskStatus.running
              · rw [if_pos hst] at he
                injection he with he
                subst he
                exact hkeep
              · rw [if_neg hst] at he
                by_cases hi : fr.sentences.length ≤ fr.i
                · rw [if_pos hi] at he
                  injection he with he
                  subst he
                  exact hkeep
                · rw [if_neg hi] at he
                  exact Option.noConfusion he
      · rw [if_neg hph] at he
        exact Option.noConfusion he

/-- A successful window preserves the invariant: the counter advances by the
window length, which fits inside the captured total. -/
theorem sysInv_stepBatchOk {s s' : Sys} {tmap : List (Option Str)}
    (h : SysInv s) (he : stepBatchOk s tmap = some s') : SysInv s' := by
  obtain ⟨h1, h2, h3, h4⟩ := h
  unfold stepBatchOk at he
  cases hl : s.loop with
  | none =>
      rw [hl] at he
      exact Option.noConfusion he
  | some fr =>
      cases hc : s.currentTask with
      | none =>
          rw [hl, hc] at he
          exact Option.noConfusion he
      | some t =>
          rw [hl, hc] at he
          dsimp only at he
          split at he
          · rename_i hcond
            injection he with he
            subst he
            obtain ⟨hfr1, hfr2⟩ := h2 fr hl
            obtain ⟨hlink1, hlink2⟩ := h3 fr t hl hc
            obtain ⟨htot, hcle, hprog, hinit, hslen⟩ := h1 t hc
            have hblen : (currentBatch fr).length =
                min fr.batchSize (fr.sentences.length - fr.i) :=
              currentBatch_length fr
            have htOK : taskOK { t with
                completedSentences := fr.completed + (currentBatch fr).length,
                progress := progressCalc (fr.completed + (currentBatch fr).length)
                  fr.totalSentences } := by
              unfold taskOK
              dsimp only
              refine ⟨htot, by omega, ?_, by omega, hslen⟩
              rw [hlink1]
            refine ⟨?_, ?_, ?_, ?_⟩
            · intro t' ht'
              injection ht' with ht'
              rw [← ht']
              exact htOK
            · intro fr' hfr'
              injection hfr' with hfr'
              rw [← hfr']
              unfold frameOK
              dsimp only
              exact ⟨by omega, hfr2⟩
            · intro fr' t' hfr' ht'
              injection hfr' with hfr'
              injection ht' with ht'
              rw [← hfr', ← ht']
              exact ⟨hlink1, rfl⟩
            · exact notifiedOK_append h4 (fun t' ht' => by
                injection ht' with ht'
                rw [← ht']
                exact htOK)
          · exact Option.noConfusion he

/-- A failing batch call preserves the invariant (only the phase and the call
counter change). -/
theorem sysInv_stepBatchFail {s s' : Sys} (h : SysInv s)
    (he : stepBatchFail s = some s') : SysInv s' := by
  obtain ⟨h1, h2, h3, h4⟩ := h
  unfold stepBatchFail at he
  cases hl : s.loop with
  | none =>
      rw [hl] at he
      exact Option.noConfusion he
  | some fr =>
      cases hc : s.currentTask with
      | none =>
          rw [hl, hc] at he
          exact Option.noConfusion he
      | some t =>
          rw [hl, hc] at he
          dsimp only at he
          split at he
          · injection he with he
            subst he
            refine ⟨?_, ?_, ?_, h4⟩
            · intro t' ht'
              injection ht' with ht'
              rw [← ht']
              exact h1 t hc
            · intro fr' hfr'
              injection hfr' with hfr'
              rw [← hfr']
              exact h2 fr hl
            · intro fr' t' hfr' ht'
              injection hfr' with hfr'
              injection ht' with ht'
              rw [← hfr', ← ht']
              exact h3 fr t hl hc
          · exact Option.noConfusion he

/-- One fallback unit preserves the invariant (only the cache, the call
counters and the inner position change). -/
theorem sysInv_stepFallbackUnit {s s' : Sys} {result : Option Str}
    (h : SysInv s) (he : stepFallbackUnit s result = some s') : SysInv s' := by
  obtain ⟨h1, h2, h3, h4⟩ := h
  unfold stepFallbackUnit at he
  cases hl : s.loop with
  | none =>
      rw [hl] at he
      exact Option.noConfusion he
  | some fr =>
      cases hc : s.currentTask with
      | none =>
          rw [hl, hc] at he
          exact Option.noConfusion he
      | some t =>
          rw [hl, hc] at he
          dsimp only at he
          cases hph : fr.phase with
          | boundary =>
              rw [hph] at he
              exact Option.noConfusion he
          | finale =>
              rw [hph] at he
              exact Option.noConfusion he
          | fallback k =>
              rw [hph] at he
              dsimp only at he
              split at he
              · cases hu : (currentBatch fr)[k]? with
                | none =>
                    rw [hu] at he
                    exact Option.noConfusion he
                | some unit =>
                    rw [hu] at he
                    dsimp only at he
                    injection he with he
                    subst he
                    refine ⟨?_, ?_, ?_, h4⟩
                    · intro t' ht'
                      injection ht' with ht'
                      rw [← ht']
                      exact h1 t hc
                    · intro fr' hfr'
                      injection hfr' with hfr'
                      rw [← hfr']
                      exact h2 fr hl
                    · intro fr' t' hfr' ht'
                      injection hfr' with hfr'
                      injection ht' with ht'
                      rw [← hfr', ← ht']
                      exact h3 fr t hl hc
              · exact Option.noConfusion he

/-- The post-fallback advance preserves the invariant: the full window length
is added, which still fits inside the captured total. -/
theorem sysInv_stepFallbackAdvance {s s' : Sys} (h : SysInv s)
    (he : stepFallbackAdvance s = some s') : SysInv s' := by
  obtain ⟨h1, h2, h3, h4⟩ := h
  unfold stepFallbackAdvance at he
  cases hl : s.loop with
  | none =>
      rw [hl] at he
      exact Option.noConfusion he
  | some fr =>
      rw [hl] at he
      dsimp only at he
      cases hph : fr.phase with
      | boundary =>
          rw [hph] at he
          exact Option.noConfusion he
      | finale =>
          rw [hph] at he
          exact Option.noConfusion he
      | fallback k =>
          rw [hph] at he
          dsimp only at he
          cases hc : s.currentTask with
          | none =>
              rw [hc] at he
              dsimp only at he
              injection he with he
              subst he
              refine ⟨?_, ?_, ?_, h4⟩
              · intro t' ht'
                exact Option.noConfusion ht'
              · intro fr' hfr'
                exact Option.noConfusion hfr'
              · intro fr' t' hfr' _
                exact Option.noConfusion hfr'
          | some t =>
              rw [hc] at he
              dsimp only at he
              split at he
              · injection he with he
                subst he
                obtain ⟨hfr1, hfr2⟩ := h2 fr hl
                obtain ⟨hlink1, hlink2⟩ := h3 fr t hl hc
                obtain ⟨htot, hcle, hprog, hinit, hslen⟩ := h1 t hc
                have hblen : (currentBatch fr).length =
                    min fr.batchSize (fr.sentences.length - fr.i) :=
                  currentBatch_length fr
                have htOK : taskOK { t with
                    completedSentences := fr.completed + (currentBatch fr).length,
                    progress := progressCalc (fr.completed + (currentBatch fr).length)
                      fr.totalSentences } := by
                  unfold taskOK
                  dsimp only
                  refine ⟨htot, by omega, ?_, by omega, hslen⟩
                  rw [hlink1]
                refine ⟨?_, ?_, ?_, ?_⟩
                · intro t' ht'
                  injection ht' with ht'
                  rw [← ht']
                  exact htOK
                · intro fr' hfr'
                  injection hfr' with hfr'
                  rw [← hfr']
                  unfold frameOK
                  dsimp only
                  exact ⟨by omega, hfr2⟩
                · intro fr' t' hfr' ht'
                  injection hfr' with hfr'
                  injection ht' with ht'
                  rw [← hfr', ← ht']
                  exact ⟨hlink1, rfl⟩
                · exact notifiedOK_append h4 (fun t' ht' => by
                    injection ht' with ht'
                    rw [← ht']
                    exact htOK)
              · exact Option.noConfusion he

/-- The completion block preserves the invariant: the forced `progress = 100`
agrees with the formula at `completed = total`. -/
theorem sysInv_stepFinishLoop {s s' : Sys} (h : SysInv s)
    (he : stepFinishLoop s = some s') : SysInv s' := by
  obtain ⟨h1, h2, h3, h4⟩ := h
  unfold stepFinishLoop at he
  cases hl : s.loop with
  | none =>
      rw [hl] at he
      exact Option.noConfusion he
  | some fr =>
      rw [hl] at he
      dsimp only at he
      by_cases hph : fr.phase = Phase.finale
      · rw [if_pos hph] at he
        cases hc : s.currentTask with
        | none =>
            rw [hc] at he
            dsimp only at he
            injection he with he
            subst he
            refine ⟨?_, ?_, ?_, h4⟩
            · intro t' ht'
              exact Option.noConfusion ht'
            · intro fr' hfr'
              exact Option.noConfusion hfr'
            · intro fr' t' hfr' _
              exact Option.noConfusion hfr'
        | some t =>
            rw [hc] at he
            dsimp only at he
            by_cases hst : t.status = TaskStatus.running
            · rw [if_pos hst] at he
              injection he with he
              subst he
              obtain ⟨hlink1, hlink2⟩ := h3 fr t hl hc
              obtain ⟨htot, hcle, hprog, hinit, hslen⟩ := h1 t hc
              have htOK : taskOK
                  { t with
                    status := TaskStatus.completed,
                    endTime := some s.clock,
                    progress := 100,
                    completedSentences := fr.totalSentences } := by
                unfold taskOK
                dsimp only
                refine ⟨htot, by omega, ?_, by omega, hslen⟩
                rw [hlink1, progressCalc_self htot]
              refine ⟨?_, ?_, ?_, ?_⟩
              · intro t' ht'
                injection ht' with ht'
                rw [← ht']
                exact htOK
              · intro fr' hfr'
                exact Option.noConfusion hfr'
              · intro fr' t' hfr' _
                exact Option.noConfusion hfr'
              · exact notifiedOK_append h4 (fun t' ht' => by
                  injection ht' with ht'
                  rw [← ht']
                  exact htOK)
            · rw [if_neg hst] at he
              injection he with he
              subst he
              refine ⟨?_, ?_, ?_, h4⟩
              · intro t' ht'
                injection ht' with ht'
                rw [← ht']
                exact h1 t hc
              · intro fr' hfr'
                exact Option.noConfusion hfr'
              · intro fr' t' hfr' _
                exact Option.noConfusion hfr'
      · rw [if_neg hph] at he
        exact Option.noConfusion he

/-- Every step of the system preserves the invariant. -/
theorem sysInv_step {s s' : Sys} {e : Ev} (h : SysInv s)
    (he : step s e = some s') : SysInv s' := by
  cases e with
  | start m bid btitle all bs =>
      have h1 : SysInv (if hasRunningTask s then stopSem s else s) := by
        split
        · exact sysInv_stopSem h
        · exact h
      exact sysInv_stepStartCore h1 he
  | pause => exact sysInv_stepPause h he
  | resume => exact sysInv_stepResume h he
  | stop =>
      injection he with he
      subst he
      exact sysInv_tick (sysInv_stopSem h)
  | clearCompleted =>
      obtain ⟨h1, h2, h3, h4⟩ := h
      dsimp only [step] at he
      cases hc : s.currentTask with
      | none =>
          rw [hc] at he
          dsimp only at he
          injection he with he
          subst he
          exact sysInv_tick ⟨h1, h2, h3, h4⟩
      | some t =>
          rw [hc] at he
          dsimp only at he
          by_cases hst : t.status = TaskStatus.completed
          · rw [if_pos hst] at he
            injection he with he
            subst he
            refine sysInv_tick (sysInv_pushNotify ⟨?_, h2, ?_, h4⟩)
            · intro t' ht'
              exact Option.noConfusion ht'
            · intro fr t' _ hct
              exact Option.noConfusion hct
          · rw [if_neg hst] at he
            injection he with he
            subst he
            exact sysInv_tick ⟨h1, h2, h3, h4⟩
  | batchOk tmap => exact sysInv_stepBatchOk h he
  | batchFail => exact sysInv_stepBatchFail h he
  | fallbackUnit r => exact sysInv_stepFallbackUnit h he
  | fallbackAdvance => exact sysInv_stepFallbackAdvance h he
  | loopExit => exact sysInv_stepLoopExit h he
  | finishLoop => exact sysInv_stepFinishLoop h he

/-- The invariant holds along every run. -/
theorem sysInv_run :
    ∀ (evs : List Ev) (s0 s : Sys), SysInv s0 → run s0 evs = some s → SysInv s := by
  intro evs
  induction evs with
  | nil =>
      intro s0 s h he
      injection he with he
      subst he
      exact h
  | cons e es ih =>
      intro s0 s h he
      unfold run at he
      cases hs : step s0 e with
      | none =>
          rw [hs] at he
          exact Option.noConfusion he
      | some s1 =>
          rw [hs] at he
          exact ih s1 s (sysInv_step h hs) he

/-- The fresh service satisfies the invariant. -/
theorem sysInv_initSys : SysInv initSys := by
  refine ⟨?_, ?_, ?_, ?_⟩
  · intro t ht
    exact Option.noConfusion ht
  · intro fr hfr
    exact Option.noConfusion hfr
  · intro fr t hfr _
    exact Option.noConfusion hfr
  · intro o ho
    cases ho

/-- Every reachable state satisfies the invariant. -/
theorem reachable_sysInv {s : Sys} (h : Reachable s) : SysInv s := by
  obtain ⟨evs, he⟩ := h
  exact sysInv_run evs initSys s sysInv_initSys he

/-- For `total ≥ 1` the code's progress expression coincides with the spec's
clamp formula. -/
theorem progressCalc_eq_specProgress {c t : Nat} (h : 1 ≤ t) :
    progressCalc c t = specProgress c t := by
  unfold progressCalc specProgress
  rw [if_neg (by omega), Nat.zero_max]

/-- `completedSentences` never decreases across a non-`start` step taken
while the task is running (`start` discards the Job and builds a new one). -/
theorem completed_monotone {s s' : Sys} {e : Ev} (hinv : SysInv s)
    (hne : isStartEv e = false) (he : step s e = some s')
    {t t' : TranslationTask} (hc : s.currentTask = some t)
    (hst : t.status = TaskStatus.running) (hc' : s'.currentTask = some t') :
    t.completedSentences ≤ t'.completedSentences := by
  obtain ⟨h1, h2, h3, h4⟩ := hinv
  cases e with
  | start m bid btitle all bs => simp [isStartEv] at hne
  | pause =>
      unfold step stepPause at he
      rw [hc] at he
      dsimp only at he
      rw [if_pos hst] at he
      injection he with he
      subst he
      injection hc' with hc'
      rw [← hc']
  | resume =>
      unfold step stepResume at he
      rw [hc] at he
      dsimp only at he
      rw [if_neg (by rw [hst]; intro hx; exact TaskStatus.noConfusion hx)] at he
      injection he with he
      subst he
      dsimp only [tick] at hc'
      rw [hc] at hc'
      injection hc' with hc'
      rw [← hc']
  | stop =>
      unfold step stopSem at he
      rw [hc] at he
      dsimp only at he
      injection he with he
      subst he
      exact Option.noConfusion hc'
  | clearCompleted =>
      unfold step at he
      rw [hc] at he
      dsimp only at he
      rw [if_neg (by rw [hst]; intro hx; exact TaskStatus.noConfusion hx)] at he
      injection he with he
      subst he
      dsimp only [tick] at hc'
      rw [hc] at hc'
      injection hc' with hc'
      rw [← hc']
  | batchOk tmap =>
      unfold step stepBatchOk at he
      cases hl : s.loop with
      | none =>
          rw [hl] at he
          exact Option.noConfusion he
      | some fr =>
          rw [hl, hc] at he
          dsimp only at he
          split at he
          · injection he with he
            subst he
            injection hc' with hc'
            rw [← hc']
            dsimp only
            have := (h3 fr t hl hc).2
            omega
          · exact Option.noConfusion he
  | batchFail =>
      unfold step stepBatchFail at he
      cases hl : s.loop with
      | none =>
          rw [hl] at he
          exact Option.noConfusion he
      | some fr =>
          rw [hl, hc] at he
          dsimp only at he
          split at he
          · injection he with he
            subst he
            injection hc' with hc'
            rw [← hc']
          · exact Option.noConfusion he
  | fallbackUnit r =>
      unfold step stepFallbackUnit at he
      cases hl : s.loop with
      | none =>
          rw [hl] at he
          exact Option.noConfusion he
      | some fr =>
          rw [hl, hc] at he
          dsimp only at he
          cases hph : fr.phase with
          | boundary =>
              rw [hph] at he
              exact Option.noConfusion he
          | finale =>
              rw [hph] at he
              exact Option.noConfusion he
          | fallback k =>
              rw [hph] at he
              dsimp only at he
              split at he
              · cases hu : (currentBatch fr)[k]? with
                | none =>
                    rw [hu] at he
                    exact Option.noConfusion he
                | some unit =>
                    rw [hu] at he
                    dsimp only at he
                    injection he with he
                    subst he
                    injection hc' with hc'
                    rw [← hc']
              · exact Option.noConfusion he
  | fallbackAdvance =>
      unfold step stepFallbackAdvance at he
      cases hl : s.loop with
      | none =>
          rw [hl] at he
          exact Option.noConfusion he
      | some fr =>
          rw [hl] at he
          dsimp only at he
          cases hph : fr.phase with
          | boundary =>
              rw [hph] at he
              exact Option.noConfusion he
          | finale =>
              rw [hph] at he
              exact Option.noConfusion he
          | fallback k =>
              rw [hph, hc] at he
              dsimp only at he
              split at he
              · injection he with he
                subst he
                injection hc' with hc'
                rw [← hc']
                dsimp only
                have := (h3 fr t hl hc).2
                omega
              · exact Option.noConfusion he
  | loopExit =>
      unfold step stepLoopExit at he
      cases hl : s.loop with
      | none =>
          rw [hl] at he
          exact Option.noConfusion he
      | some fr =>
          rw [hl] at he
          dsimp only at he
          by_cases hph : fr.phase = Phase.boundary
          · rw [if_pos hph] at he
            by_cases hab : isAborted s = true
            · rw [if_pos hab] at he
              injection he with he
              subst he
              dsimp only [tick] at hc'
              rw [hc] at hc'
              injection hc' with hc'
              rw [← hc']
            · rw [if_neg hab] at he
              rw [hc] at he
              dsimp only at he
              rw [if_neg (by rw [hst]; intro hx; exact hx rfl)] at he
              by_cases hi : fr.sentences.length ≤ fr.i
              · rw [if_pos hi] at he
                injection he with he
                subst he
                injection hc' with hc'
                rw [← hc']
              · rw [if_neg hi] at he
                exact Option.noConfusion he
          · rw [if_neg hph] at he
            exact Option.noConfusion he
  | finishLoop =>
      unfold step stepFinishLoop at he
      cases hl : s.loop with
      | none =>
          rw [hl] at he
          exact Option.noConfusion he
      | some fr =>
          rw [hl] at he
          dsimp only at he
          by_cases hph : fr.phase = Phase.finale
          · rw [if_pos hph, hc] at he
            dsimp only at he
            rw [if_pos hst] at he
            injection he with he
            subst he
            injection hc' with hc'
            rw [← hc']
            dsimp only
            have hle := (h1 t hc).2.1
            have := (h3 fr t hl hc).1
            omega
          · rw [if_neg hph] at he
            exact Option.noConfusion he

/-- Claim C4: in every reachable state in which a Job exists,
`0 ≤ completedUnits ≤ totalUnits`; at every notified snapshot
`progressPercent = clamp(round(completed/total*100), 0, 100)`; and
`completedUnits` is monotonically non-decreasing across every step taken
while `status == Running` — `start` excepted, since `start` discards the
current Job and creates a fresh one (the spec's per-Job counter). -/
theorem C4_job_invariants (s : Sys) (hr : Reachable s) :
    (∀ t, s.currentTask = some t →
      0 ≤ t.completedSentences ∧ t.completedSentences ≤ t.totalSentences) ∧
    (∀ o ∈ s.notified, ∀ t, o = some t →
      t.progress = specProgress t.completedSentences t.totalSentences) ∧
    (∀ (e : Ev) (s' : Sys) (t t' : TranslationTask),
      isStartEv e = false → step s e = some s' →
      s.currentTask = some t → t.status = TaskStatus.running →
      s'.currentTask = some t' →
      t.completedSentences ≤ t'.completedSentences) := by
  have hinv := reachable_sysInv hr
  obtain ⟨h1, h2, h3, h4⟩ := hinv
  refine ⟨?_, ?_, ?_⟩
  · intro t ht
    exact ⟨Nat.zero_le _, (h1 t ht).2.1⟩
  · intro o ho t ht
    obtain ⟨htot, _, hprog, _, _⟩ := h4 o ho t ht
    rw [hprog]
    exact progressCalc_eq_specProgress htot
  · intro e s' t t' hne he hc hst hc'
    exact completed_monotone ⟨h1, h2, h3, h4⟩ hne he hc hst hc'

/-- Witness for C4 at the concrete reachable Scenario-A state (which holds a
paused task with `completedSentences = 2`, and notified snapshots). -/
theorem C4_job_invariants_witness :
    (∀ t, sScenA1.currentTask = some t →
      0 ≤ t.completedSentences ∧ t.completedSentences ≤ t.totalSentences) ∧
    (∀ o ∈ sScenA1.notified, ∀ t, o = some t →
      t.progress = specProgress t.completedSentences t.totalSentences) ∧
    (∀ (e : Ev) (s' : Sys) (t t' : TranslationTask),
      isStartEv e = false → step sScenA1 e = some s' →
      sScenA1.currentTask = some t → t.status = TaskStatus.running →
      s'.currentTask = some t' →
      t.completedSentences ≤ t'.completedSentences) :=
  C4_job_invariants sScenA1 ⟨evsScenA1, rfl⟩

/-- Claim C1: `resume()` is valid only from Paused (from any other status it
changes nothing); from Paused it replaces `sentences` with the suffix of the
stored pending list starting at
`translatedSinceStart = completedSentences - (totalSentences - sentences.length)`
(i.e. `completed - initialCacheHits`), sets `status = Running`, installs a
fresh controller and relaunches the loop on that suffix; and in Scenario A
(units "A.".."D.", batch size 2, empty cache, pause after window 1, resume)
the pending suffix is exactly `[C., D.]` and the job finishes with
`completedUnits = 4`, `progress = 100`, `status = Completed`. -/
theorem C1_resume_semantics :
    (∀ (s : Sys) (t : TranslationTask), s.currentTask = some t →
      t.status ≠ TaskStatus.paused → step s Ev.resume = some (tick s)) ∧
    (∀ (s : Sys) (t : TranslationTask), s.currentTask = some t →
      t.status = TaskStatus.paused → s.loop = none →
      ∃ s', step s Ev.resume = some s' ∧
        s'.currentTask = some { t with
          sentences := t.sentences.drop
            (t.completedSentences - (t.totalSentences - t.sentences.length)),
          status := TaskStatus.running } ∧
        s'.abortState = some false ∧
        s'.loop = some
          { bookId := t.bookId,
            sentences := t.sentences.drop
              (t.completedSentences - (t.totalSentences - t.sentences.length)),
            batchSize := t.batchSize, totalSentences := t.totalSentences,
            completed := t.completedSentences, i := 0,
            phase := Phase.boundary }) ∧
    ((run initSys evsScenA2).map (fun s => s.currentTask.map
        (fun t => (t.sentences, t.status))) =
      some (some ([unitC, unitD], TaskStatus.running))) ∧
    ((run initSys evsScenA3).map (fun s => s.currentTask.map
        (fun t => (t.completedSentences, t.progress, t.status))) =
      some (some (4, 100, TaskStatus.completed))) := by
  refine ⟨?_, ?_, by decide, by decide⟩
  · intro s t hc hst
    unfold step stepResume
    rw [hc]
    dsimp only
    rw [if_neg hst]
  · intro s t hc hst hl
    have key : step s Ev.resume = some (tick
        { pushMsg (pushNotify
            { s with
              currentTask := some { t with
                sentences := t.sentences.drop
                  (t.completedSentences - (t.totalSentences - t.sentences.length)),
                status := TaskStatus.running },
              abortState := some false }) Msg.resumeInfo with
          loop := some
            { bookId := t.bookId,
              sentences := t.sentences.drop
                (t.completedSentences - (t.totalSentences - t.sentences.length)),
              batchSize := t.batchSize, totalSentences := t.totalSentences,
              completed := t.completedSentences, i := 0,
              phase := Phase.boundary } }) := by
      unfold step stepResume
      rw [hc]
      dsimp only
      rw [if_pos hst, hl]
    exact ⟨_, key, rfl, rfl, rfl⟩

/-- Witness for C1: the from-Paused conjunct applied at the concrete paused
Scenario-A state. -/
theorem C1_resume_semantics_witness :
    ∃ s', step sScenA1 Ev.resume = some s' ∧
      s'.currentTask = some { taskScenA1 with
        sentences := taskScenA1.sentences.drop
          (taskScenA1.completedSentences -
            (taskScenA1.totalSentences - taskScenA1.sentences.length)),
        status := TaskStatus.running } ∧
      s'.abortState = some false ∧
      s'.loop = some
        { bookId := taskScenA1.bookId,
          sentences := taskScenA1.sentences.drop
            (taskScenA1.completedSentences -
              (taskScenA1.totalSentences - taskScenA1.sentences.length)),
          batchSize := taskScenA1.batchSize,
          totalSentences := taskScenA1.totalSentences,
          completed := taskScenA1.completedSentences, i := 0,
          phase := Phase.boundary } :=
  C1_resume_semantics.2.1 sScenA1 taskScenA1 (by decide) (by decide) (by decide)

/-- Claim C2: after every window — whether the batch call succeeded or the
per-unit fallback ran — `completedSentences` advances by exactly the window
length, `progress` is recomputed from the new counter, and observers are
notified; and in the concrete 3-unit window whose batch call throws, the
fallback is invoked exactly once per unit (3 calls, 4 `completions` calls in
total) and `completedSentences` rises by 3 for every combination of per-unit
success/failure. -/
theorem C2_window_advance :
    (∀ (s s' : Sys) (fr : LoopFrame) (t : TranslationTask)
        (tmap : List (Option Str)),
      s.loop = some fr → s.currentTask = some t →
      fr.completed = t.completedSentences →
      step s (Ev.batchOk tmap) = some s' →
      ∃ t', s'.currentTask = some t' ∧
        t'.completedSentences = t.completedSentences + (currentBatch fr).length ∧
        t'.progress = progressCalc t'.completedSentences fr.totalSentences ∧
        s'.notified = s.notified ++ [some t']) ∧
    (∀ (s s' : Sys) (fr : LoopFrame) (t : TranslationTask) (k : Nat),
      s.loop = some fr → fr.phase = Phase.fallback k →
      s.currentTask = some t → fr.completed = t.completedSentences →
      step s Ev.fallbackAdvance = some s' →
      ∃ t', s'.currentTask = some t' ∧
        t'.completedSentences = t.completedSentences + (currentBatch fr).length ∧
        t'.progress = progressCalc t'.completedSentences fr.totalSentences ∧
        s'.notified = s.notified ++ [some t']) ∧
    (∀ b1 b2 b3 : Bool,
      (run initSys (evsScenC b1 b2 b3)).map (fun s =>
        (s.fallbackCalls, s.llmCalls,
         s.currentTask.map (fun t => (t.completedSentences, t.progress)))) =
      some (3, 4, some (3, 100))) := by
  refine ⟨?_, ?_, ?_⟩
  · intro s s' fr t tmap hl hc hlink he
    unfold step stepBatchOk at he
    rw [hl, hc] at he
    dsimp only at he
    split at he
    · injection he with he
      subst he
      refine ⟨_, rfl, ?_, rfl, rfl⟩
      dsimp only
      rw [hlink]
    · exact Option.noConfusion he
  · intro s s' fr t k hl hph hc hlink he
    unfold step stepFallbackAdvance at he
    rw [hl] at he
    dsimp only at he
    rw [hph] at he
    dsimp only at he
    rw [hc] at he
    dsimp only at he
    split at he
    · injection he with he
      subst he
      refine ⟨_, rfl, ?_, rfl, rfl⟩
      dsimp only
      rw [hlink]
    · exact Option.noConfusion he
  · intro b1 b2 b3
    cases b1 <;> cases b2 <;> cases b3 <;> decide

/-- Witness for C2: the batch-success conjunct applied at the concrete
freshly started Scenario-C state. -/
theorem C2_window_advance_witness :
    ∃ t', ((run initSys (evsStartedC ++ [Ev.batchOk [some [90], some [91], some [92]]])).getD
        initSys).currentTask = some t' ∧
      t'.completedSentences = taskStartedC.completedSentences +
        (currentBatch frameStartedC).length ∧
      t'.progress = progressCalc t'.completedSentences
        frameStartedC.totalSentences ∧
      ((run initSys (evsStartedC ++ [Ev.batchOk [some [90], some [91], some [92]]])).getD
        initSys).notified = sStartedC.notified ++ [some t'] :=
  C2_window_advance.1 sStartedC
    ((run initSys (evsStartedC ++ [Ev.batchOk [some [90], some [91], some [92]]])).getD initSys)
    frameStartedC taskStartedC [some [90], some [91], some [92]]
    (by decide) (by decide) (by decide) (by decide)

/-- Counterexample to claim C3 as stated: at a concrete reachable state with
a running job, `pause()` leaves `endTime` unset (`none`), contradicting
"stamps endedAt = now" — in the code only `stopTranslation` and the
completion/error paths write `endTime`. -/
theorem C3_pause_no_endTime_counterexample :
    (run initSys evsScenAPause).map (fun s =>
      s.currentTask.map (fun t => (t.status, t.endTime))) =
    some (some (TaskStatus.paused, none)) := by
  decide

/-- Claim C3 (amended): `pause()`, invoked while the status is Running,
signals cancellation to the loop (aborts the current controller), sets
`status = Paused` and notifies observers — but does **not** stamp `endTime`:
every other task field, `endTime` included, is left unchanged. -/
theorem C3_pause_semantics (s : Sys) (t : TranslationTask)
    (hc : s.currentTask = some t) (hst : t.status = TaskStatus.running) :
    ∃ s', step s Ev.pause = some s' ∧
      s'.currentTask = some { t with status := TaskStatus.paused } ∧
      s'.abortState = s.abortState.map (fun _ => true) ∧
      s'.notified = s.notified ++ [some { t with status := TaskStatus.paused }] ∧
      s'.msgs = s.msgs ++ [Msg.pauseInfo] ∧
      s'.db = s.db ∧ s'.loop = s.loop ∧
      (∀ t', s'.currentTask = some t' → t'.endTime = t.endTime) := by
  have key : step s Ev.pause = some (tick (pushMsg (pushNotify
      { s with
        currentTask := some { t with status := TaskStatus.paused },
        abortState := s.abortState.map (fun _ => true) }) Msg.pauseInfo)) := by
    unfold step stepPause
    rw [hc]
    dsimp only
    rw [if_pos hst]
  refine ⟨_, key, rfl, rfl, rfl, rfl, rfl, rfl, ?_⟩
  intro t' ht'
  injection ht' with ht'
  rw [← ht']

/-- Witness for the amended C3 at the concrete running Scenario-A start
state. -/
theorem C3_pause_semantics_witness :
    ∃ s', step sRunning Ev.pause = some s' ∧
      s'.currentTask = some { taskRunning with status := TaskStatus.paused } ∧
      s'.abortState = sRunning.abortState.map (fun _ => true) ∧
      s'.notified = sRunning.notified ++
        [some { taskRunning with status := TaskStatus.paused }] ∧
      s'.msgs = sRunning.msgs ++ [Msg.pauseInfo] ∧
      s'.db = sRunning.db ∧ s'.loop = sRunning.loop ∧
      (∀ t', s'.currentTask = some t' → t'.endTime = taskRunning.endTime) :=
  C3_pause_semantics sRunning taskRunning (by decide) (by decide)

/-- Counterexample to claim C5 as stated: from a concrete reachable state
holding a Running job, a `start` with no Translator configured does change
the controller state — the running job has already been discarded (stop
semantics run before the configuration check), so `currentTask` goes from
`some _` to `none` and a null snapshot is broadcast. -/
theorem C5_failed_start_counterexample :
    ((run initSys evsRunning).map (fun s => s.currentTask.isSome) = some true) ∧
    (((run initSys evsRunning).bind (fun s =>
        step s (Ev.start false bkId [] [unitW2] 5))).map (fun s =>
          (s.currentTask.isSome, s.msgs)) =
      some (false, [Msg.startInfo, Msg.stopInfo, Msg.errNoModel])) := by
  constructor
  · decide
  · decide

/-- Claim C5 (amended): if no Translator is configured, `start` creates no
Job and — provided no *Running* job existed — changes nothing at all (task,
controller, cache, loop, listeners' view) apart from emitting the error
message; a prior Running job, however, is stopped (discarded) before the
configuration check, so that case is a state change. -/
theorem C5_failed_start_no_state_change (s : Sys)
    (h : hasRunningTask s = false) (bid btitle : Str)
    (all : List Sentence) (bs : Nat) :
    ∃ s', step s (Ev.start false bid btitle all bs) = some s' ∧
      s'.currentTask = s.currentTask ∧ s'.abortState = s.abortState ∧
      s'.db = s.db ∧ s'.loop = s.loop ∧ s'.notified = s.notified ∧
      s'.llmCalls = s.llmCalls ∧ s'.fallbackCalls = s.fallbackCalls ∧
      s'.msgs = s.msgs ++ [Msg.errNoModel] := by
  have key : step s (Ev.start false bid btitle all bs) =
      some (tick (pushMsg s Msg.errNoModel)) := by
    unfold step stepStart stepStartCore
    rw [h]
    dsimp only
    rw [if_pos rfl, if_neg (show ¬(false = true) from by decide)]
  exact ⟨_, key, rfl, rfl, rfl, rfl, rfl, rfl, rfl, rfl⟩

/-- Witness for the amended C5 at the concrete paused Scenario-A state. -/
theorem C5_failed_start_no_state_change_witness :
    ∃ s', step sScenA1 (Ev.start false bkId [] [unitW2] 5) = some s' ∧
      s'.currentTask = sScenA1.currentTask ∧
      s'.abortState = sScenA1.abortState ∧
      s'.db = sScenA1.db ∧ s'.loop = sScenA1.loop ∧
      s'.notified = sScenA1.notified ∧
      s'.llmCalls = sScenA1.llmCalls ∧
      s'.fallbackCalls = sScenA1.fallbackCalls ∧
      s'.msgs = sScenA1.msgs ++ [Msg.errNoModel] :=
  C5_failed_start_no_state_change sScenA1 (by decide) bkId [] [unitW2] 5

/-- Counterexample to claim C6 as stated: from a concrete reachable state
holding a *paused* job whose first unit is cached, an all-cached `start`
leaves that paused job in place — the controller does **not** end up with no
current Job.  The completion message is emitted and the Translator is not
invoked (the call counter stays at 1, from the earlier window). -/
theorem C6_all_cached_start_counterexample :
    (run initSys evsAllCachedStart).map (fun s =>
      (s.currentTask.map (fun t => t.status), s.msgs, s.llmCalls)) =
    some (some TaskStatus.paused,
      [Msg.startInfo, Msg.pauseInfo, Msg.allCached], 1) := by
  decide

/-- Claim C6 (amended): a `start` with a Translator configured whose units
are all cached creates no Job and signals "already complete" without
invoking the Translator; the controller's state (current task — `null` or a
prior non-Running job —, cache, controller, loop, listener view) is
otherwise unchanged.  (A prior *Running* job is stopped first, so only in
that case does the controller end with no current Job.) -/
theorem C6_all_cached_start (s : Sys) (bid btitle : Str)
    (all : List Sentence) (bs : Nat) (hrun : hasRunningTask s = false)
    (hcached : all.filter (fun u => ¬ mapHas
        (getBatchTranslations s.db bid (all.map (fun x => x.text)))
        u.text) = []) :
    ∃ s', step s (Ev.start true bid btitle all bs) = some s' ∧
      s'.currentTask = s.currentTask ∧ s'.abortState = s.abortState ∧
      s'.db = s.db ∧ s'.loop = s.loop ∧ s'.notified = s.notified ∧
      s'.llmCalls = s.llmCalls ∧ s'.fallbackCalls = s.fallbackCalls ∧
      s'.msgs = s.msgs ++ [Msg.allCached] := by
  have key : step s (Ev.start true bid btitle all bs) =
      some (tick (pushMsg s Msg.allCached)) := by
    unfold step stepStart stepStartCore
    rw [hrun]
    dsimp only
    rw [if_neg (show ¬(false = true) from by decide)]
    rw [if_neg (show ¬(true = false) from by decide)]
    rw [hcached]
    rw [if_pos rfl]
  exact ⟨_, key, rfl, rfl, rfl, rfl, rfl, rfl, rfl, rfl⟩

/-- Witness for the amended C6 at the concrete paused-with-cached-unit
state. -/
theorem C6_all_cached_start_witness :
    ∃ s', step sPausedCached (Ev.start true bkId [] [unitW1] 1) = some s' ∧
      s'.currentTask = sPausedCached.currentTask ∧
      s'.abortState = sPausedCached.abortState ∧
      s'.db = sPausedCached.db ∧ s'.loop = sPausedCached.loop ∧
      s'.notified = sPausedCached.notified ∧
      s'.llmCalls = sPausedCached.llmCalls ∧
      s'.fallbackCalls = sPausedCached.fallbackCalls ∧
      s'.msgs = sPausedCached.msgs ++ [Msg.allCached] :=
  C6_all_cached_start sPausedCached bkId [] [unitW1] 1 (by decide) (by decide)

/-- Claim C10: once cancellation is requested mid-fallback, no further
fallback unit of the window can be attempted (the per-unit check refuses),
yet leaving the fallback loop still advances the counter by the *full*
window length with no further Translator call; and in the concrete 6-unit
scenario (batch of 3 fails, unit 1 translated, pause mid-fallback) the job
records 3 attempted units, resume slices the pending list past the
abandoned units 2 and 3 — which are never attempted again in this job and
remain absent from the cache when the job completes. -/
theorem C10_abandoned_window :
    (∀ (s : Sys) (fr : LoopFrame) (t : TranslationTask) (k : Nat),
      s.loop = some fr → fr.phase = Phase.fallback k → isAborted s = true →
      s.currentTask = some t →
      (∀ r, step s (Ev.fallbackUnit r) = none) ∧
      ∃ s', step s Ev.fallbackAdvance = some s' ∧
        s'.fallbackCalls = s.fallbackCalls ∧ s'.llmCalls = s.llmCalls ∧
        s'.db = s.db ∧
        ∃ t', s'.currentTask = some t' ∧
          t'.completedSentences = fr.completed + (currentBatch fr).length) ∧
    ((run initSys evsAbandon1).map (fun s =>
        (s.fallbackCalls, s.llmCalls, s.currentTask.map (fun t =>
          (t.completedSentences, t.progress, t.status)))) =
      some (1, 2, some (3, 50, TaskStatus.paused))) ∧
    ((run initSys evsAbandon2).map (fun s =>
        s.currentTask.map (fun t => t.sentences)) =
      some (some [unitW4, unitW5, unitW6])) ∧
    ((run initSys evsAbandon3).map (fun s =>
        (s.fallbackCalls, s.llmCalls, s.currentTask.map (fun t =>
          (t.completedSentences, t.status)),
         s.db.map (fun r => r.originalText))) =
      some (1, 3, some (6, TaskStatus.completed),
        [unitW1.text, unitW4.text, unitW5.text, unitW6.text])) := by
  refine ⟨?_, by decide, by decide, by decide⟩
  intro s fr t k hl hph hab hc
  constructor
  · intro r
    unfold step stepFallbackUnit
    rw [hl, hc]
    dsimp only
    rw [hph]
    dsimp only
    rw [hab]
    rw [if_neg (by rintro ⟨h1, -⟩; exact Bool.noConfusion h1)]
  · have key : step s Ev.fallbackAdvance = some (tick (pushNotify
        { s with
          currentTask := some { t with
            completedSentences := fr.completed + (currentBatch fr).length,
            progress := progressCalc (fr.completed + (currentBatch fr).length)
              fr.totalSentences },
          loop := some { fr with
            completed := fr.completed + (currentBatch fr).length,
            i := fr.i + fr.batchSize,
            phase := Phase.boundary } })) := by
      unfold step stepFallbackAdvance
      rw [hl]
      dsimp only
      rw [hph]
      dsimp only
      rw [hc]
      dsimp only
      rw [if_pos (Or.inr (Or.inl hab))]
    exact ⟨_, key, rfl, rfl, rfl, _, rfl, rfl⟩

/-- Witness for C10: the general conjunct applied at the concrete
aborted-mid-fallback state. -/
theorem C10_abandoned_window_witness :
    (∀ r, step sMidFallback (Ev.fallbackUnit r) = none) ∧
    ∃ s', step sMidFallback Ev.fallbackAdvance = some s' ∧
      s'.fallbackCalls = sMidFallback.fallbackCalls ∧
      s'.llmCalls = sMidFallback.llmCalls ∧
      s'.db = sMidFallback.db ∧
      ∃ t', s'.currentTask = some t' ∧
        t'.completedSentences = frameMidFallback.completed +
          (currentBatch frameMidFallback).length :=
  C10_abandoned_window.1 sMidFallback frameMidFallback taskMidFallback 1
    (by decide) (by decide) (by decide) (by decide)
